import Mathlib

/-!
# ws4kp: the CORS proxy cache, the case-insensitive file system, the station converter

A shallow embedding of `main.go` (`proxyRequest`, `getURL`, `CaseInsensitiveFS.Open`)
and of `generate_stations.go` (`degreesToDecimal`), with the properties of the
specification proved over it.

Modelling conventions.

* The process-wide `sync.Map` is a function from keys to optional entries; a
  `*cacheEntry` stored in the map is the entry the map holds, so assigning to its
  fields updates the map.  Calls are sequential: the `RWMutex` is not modelled.
* What one call reads from outside the program (the clock, the outcome of each
  `http.DefaultClient.Do`) is an explicit argument, `World`.
* `time.Time` is an integer count of nanoseconds from the zero `Time`;
  `time.Duration` is an integer count of nanoseconds, as in Go.
* Every call into the cache map and the HTTP client is recorded in a trace, so that
  "a fetch is performed" and "exactly three attempts" are statements about the trace.
-/

set_option autoImplicit false

namespace Ws4kp

/-! ## Go library values used by `main.go` -/

/-- Go `[]byte`. -/
abbrev Bytes := List UInt8

/-- Go `time.Time`: nanoseconds from the zero `Time`. -/
abbrev Time := Int

/-- Go `time.Duration`: nanoseconds. -/
abbrev Duration := Int

/-- Go `time.Second`. -/
def Second : Duration := 1000000000

/-- Go `time.Minute`. -/
def Minute : Duration := 60 * Second

/-- Go `time.Hour`. -/
def Hour : Duration := 60 * Minute

/-- Go `Time.Before`. -/
def Before (t u : Time) : Prop := t < u

instance (t u : Time) : Decidable (Before t u) := inferInstanceAs (Decidable (t < u))

/-- Go `Time.Add`. -/
def Add (t : Time) (d : Duration) : Time := t + d

/-- Go `http.StatusOK`. -/
def StatusOK : Int := 200

/-- Go `http.StatusBadRequest`. -/
def StatusBadRequest : Int := 400

/-- Go `http.StatusInternalServerError`. -/
def StatusInternalServerError : Int := 500

/-- Go `http.MethodGet`. -/
def MethodGet : String := "GET"

/-- The fields of Go `url.URL` that the proxy reads, for a URL without user
information, opaque part or fragment. `Path` and `RawQuery` are in escaped form. -/
structure URL where
  Scheme : String
  Host : String
  Path : String
  RawQuery : String
  deriving DecidableEq, Repr

/-- Go `(*url.URL).String` on the fields modelled: `scheme://host/path?query`. -/
def URL.String (u : URL) : String :=
  (if u.Scheme ≠ "" then u.Scheme ++ ":" else "") ++
  (if u.Scheme ≠ "" ∨ u.Host ≠ "" then
     (if u.Host ≠ "" ∨ u.Path ≠ "" then "//" else "") ++ u.Host
   else "") ++
  (if u.Path ≠ "" ∧ u.Path.data.head? ≠ some '/' ∧ u.Host ≠ "" then "/" else "") ++
  u.Path ++
  (if u.RawQuery ≠ "" then "?" ++ u.RawQuery else "")

/-- Go `http.Request`, the parts `getURL` sets. -/
structure Request where
  Method : String
  URL : String
  Header : List (String × String)
  deriving DecidableEq, Repr

/-- Go `http.Header.Set`: the value replaces what the key held. -/
def HeaderSet (h : List (String × String)) (key value : String) : List (String × String) :=
  (key, value) :: h.filter (fun kv => kv.1 ≠ key)

/-- Go `http.NewRequest(method, url, nil)`. Whether the URL string is accepted is
decided by the library: `requestError url` is the error it reports, if any. -/
def NewRequest (requestError : String → Option String) (method url : String) :
    Except String Request :=
  match requestError url with
  | some e => .error e
  | none => .ok { Method := method, URL := url, Header := [] }

/-- Go `io.ReadCloser` as `io.ReadAll` sees it: the bytes read, or the read error. -/
structure Body where
  ReadAll : Except String Bytes

/-- Go `http.Response`, the fields `getURL` reads. The client never leaves `Body` nil. -/
structure Response where
  StatusCode : Int
  Status : String
  Body : Body

/-- What one `http.DefaultClient.Do(req)` returns: a transport error or a response. -/
inductive Outcome where
  | error (err : String)
  | response (resp : Response)

/-- What one call of `getURL` reads from outside the program. -/
structure World where
  /-- The outcome of `http.DefaultClient.Do(req)` in loop iteration `retries`. -/
  Do : Request → Nat → Outcome
  /-- The value of `time.Now()` in the freshness test. -/
  nowCheck : Time
  /-- The value of `time.Now()` when the expiry is stored. -/
  nowStore : Time

/-! ## The cache -/

/-- Go `cacheEntry` without its lock. -/
structure cacheEntry where
  Expires : Time := 0
  Content : Bytes := []
  deriving DecidableEq, Repr

/-- The package variable `cache`, a `sync.Map` from string to `*cacheEntry`. -/
abbrev Cache := String → Option cacheEntry

/-- Go `(*sync.Map).LoadOrStore`: the entry under the key, stored now if there was
none; the flag tells whether it was loaded. -/
def LoadOrStore (cache : Cache) (key : String) (value : cacheEntry) :
    cacheEntry × Bool × Cache :=
  match cache key with
  | some e => (e, true, cache)
  | none => (value, false, Function.update cache key (some value))

/-- The calls `getURL` makes on the cache map and on the HTTP library, in order. -/
inductive Event where
  | LoadOrStore (key : String)
  | NewRequest (url : String)
  | Do (req : Request) (retries : Nat)
  | ReadAll
  deriving DecidableEq, Repr

/-! ## `getURL` -/

/-- The constant `maxRetries` of `getURL`. -/
def maxRetries : Nat := 3

/-- How the `for` loop of `getURL` is left. -/
inductive LoopExit where
  /-- The `return nil, fmt.Errorf(...)` inside the loop. -/
  | returned (err : String)
  /-- The loop ended, by `break` or by its condition, with this value of `body`. -/
  | finished (body : Option Body)

/-- The loop `for retries := 0; retries < maxRetries; retries++` of `getURL`, started
with `remaining = maxRetries - retries` iterations left. The result is how the loop
is left and how many times `Do` was called. -/
def fetchLoop (host : String) (Do : Nat → Outcome) : Nat → Nat → LoopExit × Nat
  | 0, retries => (.finished none, retries)
  | remaining + 1, retries =>
    match Do retries with
    | .error _ => fetchLoop host Do remaining (retries + 1)
    | .response resp =>
      if resp.StatusCode ≠ StatusOK then
        if resp.StatusCode ≥ 500 ∧ resp.StatusCode < 600 then
          fetchLoop host Do remaining (retries + 1)
        else
          (.returned (host ++ " says: " ++ resp.Status), retries + 1)
      else
        (.finished (some resp.Body), retries + 1)

/-- The `switch u.Host` that chooses `expiryDuration` in `getURL`. -/
def expiryDuration (host : String) : Duration :=
  if host = "www2.ehs.niu.edu" then 5 * Minute
  else if host = "api.usno.navy.mil" then 3 * Hour
  else Hour

/-- The headers `getURL` sets on the request. -/
def setHeaders (u : URL) (req : Request) : Request :=
  let h := HeaderSet req.Header "Origin" (u.Scheme ++ "://" ++ u.Host)
  if u.Host = "api.weather.gov" then
    let h := HeaderSet h "User-Agent"
      "(WeatherStar 4000+/v1 (https://battaglia.ddns.net/twc; vbguyny@gmail.com)"
    let h := HeaderSet h "Accept" "application/vnd.noaa.dwml+xml"
    { req with Header := h }
  else
    let h := HeaderSet h "User-Agent"
      "Mozilla/5.0 (Windows NT 10.0; Win64; x64) AppleWebKit/537.36 (KHTML, like Gecko) Chrome/87.0.4280.88 Safari/537.36"
    { req with Header := h }

/-- The request `getURL` sends for `u`, when `http.NewRequest` accepts it. -/
def requestFor (u : URL) : Request :=
  setHeaders u { Method := MethodGet, URL := u.String, Header := [] }

/-- What a call of `getURL` leaves behind: the returned pair, the cache, the trace. -/
structure GetResult where
  result : Except String Bytes
  cache : Cache
  trace : List Event

/-- The `Do` events of a loop that called the client `attempts` times. -/
def doEvents (req : Request) (attempts : Nat) : List Event :=
  (List.range attempts).map (Event.Do req)

/-- Whether `Do` returned something the loop retries: a transport error or a
response with a status in 500..599. -/
def Outcome.retriable : Outcome → Prop
  | .error _ => True
  | .response resp => 500 ≤ resp.StatusCode ∧ resp.StatusCode < 600

instance : DecidablePred Outcome.retriable := fun o =>
  match o with
  | .error _ => isTrue trivial
  | .response resp =>
    inferInstanceAs (Decidable (500 ≤ resp.StatusCode ∧ resp.StatusCode < 600))

/-- The fetching part of `getURL`, from `http.NewRequest` to `io.ReadAll`: the
request is built, sent by the retry loop, and the body of a 200 response is read.
The result is what `getURL` returns from this part, with the calls made. -/
def fetch (requestError : String → Option String) (u : URL) (Do : Request → Nat → Outcome) :
    Except String Bytes × List Event :=
  match NewRequest requestError MethodGet u.String with
  | .error err => (.error err, [.NewRequest u.String])
  | .ok req =>
    let req := setHeaders u req
    match fetchLoop u.Host (Do req) maxRetries 0 with
    | (.returned err, attempts) =>
      (.error err, .NewRequest u.String :: doEvents req attempts)
    | (.finished none, attempts) =>
      (.error "failed to get", .NewRequest u.String :: doEvents req attempts)
    | (.finished (some body), attempts) =>
      match body.ReadAll with
      | .error err =>
        (.error err, .NewRequest u.String :: (doEvents req attempts ++ [.ReadAll]))
      | .ok content =>
        (.ok content, .NewRequest u.String :: (doEvents req attempts ++ [.ReadAll]))

/-- Go `getURL`: the scheme test, the cache lookup and freshness test, the fetch
(`fetch` above), and the store of content and expiry after a successful fetch. -/
def getURL (requestError : String → Option String) (cache : Cache) (u : URL) (w : World) :
    GetResult :=
  if u.Scheme ≠ "http" ∧ u.Scheme ≠ "https" then
    { result := .error "unsupported scheme", cache := cache, trace := [] }
  else
    match LoadOrStore cache u.String ({ } : cacheEntry) with
    | (entry, ok, cache) =>
      if ok = true ∧ Before w.nowCheck entry.Expires then
        { result := .ok entry.Content, cache := cache, trace := [.LoadOrStore u.String] }
      else
        match fetch requestError u w.Do with
        | (.error err, calls) =>
          { result := .error err, cache := cache, trace := .LoadOrStore u.String :: calls }
        | (.ok content, calls) =>
          { result := .ok content,
            cache := Function.update cache u.String
              (some { Content := content,
                      Expires := Add w.nowStore (expiryDuration u.Host) }),
            trace := .LoadOrStore u.String :: calls }

/-! ## `proxyRequest` -/

/-- The `case` list of the `switch url.Host` in `proxyRequest`. -/
def allowedHosts : List String :=
  ["forecast.weather.gov",
   "api.weather.com",
   "www.aviationweather.gov",
   "www.wunderground.com",
   "api-ak.wunderground.com",
   "tidesandcurrents.noaa.gov",
   "l-36.com",
   "airquality.weather.gov",
   "airnow.gov",
   "www.airnowapi.org",
   "alerts.weather.gov",
   "mesonet.agron.iastate.edu",
   "tgftp.nws.noaa.gov",
   "www.cpc.ncep.noaa.gov",
   "radar.weather.gov",
   "www2.ehs.niu.edu",
   "api.usno.navy.mil"]

/-- What the handler does with its `http.ResponseWriter`. -/
inductive Written where
  /-- Go `http.Error(w, error, code)`. -/
  | Error (error : String) (code : Int)
  /-- Go `w.Write(content)`, the first write, which sends status 200. -/
  | Write (content : Bytes)
  deriving DecidableEq, Repr

/-- The HTTP status the client receives. -/
def Written.status : Written → Int
  | .Error _ code => code
  | .Write _ => StatusOK

/-- What a call of `proxyRequest` leaves behind. -/
structure ProxyResult where
  written : Written
  cache : Cache
  trace : List Event

/-- Go `proxyRequest`. `parsed` is what `url.Parse(r.URL.Query().Get("u"))` returned. -/
def proxyRequest (requestError : String → Option String) (cache : Cache)
    (parsed : Except String URL) (w : World) : ProxyResult :=
  match parsed with
  | .error err => { written := .Error err StatusBadRequest, cache := cache, trace := [] }
  | .ok url =>
    if url.Host ∈ allowedHosts then
      let r := getURL requestError cache url w
      match r.result with
      | .error err =>
        { written := .Error err StatusInternalServerError, cache := r.cache, trace := r.trace }
      | .ok content => { written := .Write content, cache := r.cache, trace := r.trace }
    else
      { written := .Error "invalid host" StatusBadRequest, cache := cache, trace := [] }


deriving instance DecidableEq for Except

/-- The cache after `LoadOrStore` of an empty entry. -/
def stored (cache : Cache) (key : String) : Cache :=
  (LoadOrStore cache key ({ } : cacheEntry)).2.2

/-- The entry a key holds, read as the zero entry when the key is absent. -/
def entryOf (cache : Cache) (key : String) : cacheEntry :=
  (cache key).getD ({ } : cacheEntry)

/-! ## `CaseInsensitiveFS.Open` -/

/-- Go `strings.ToLower`: every rune is mapped by `unicode.ToLower`, here `lowerRune`. -/
def ToLower (lowerRune : Char → Char) (s : String) : String :=
  String.mk (s.data.map lowerRune)

/-- Go `strings.HasPrefix`. -/
def HasPrefix (s pre : String) : Bool :=
  pre.data.isPrefixOf s.data

/-- A file or a directory as `fs.WalkDir` meets it: its `fs.DirEntry` and, for a
directory, what `fs.ReadDir` lists in it, in that order. -/
inductive Node where
  | file (name : String)
  | dir (name : String) (entries : List Node)

/-- Go `fs.DirEntry.Name`. -/
def Node.Name : Node → String
  | .file name => name
  | .dir name _ => name

/-- Go `fs.DirEntry.IsDir`. -/
def Node.IsDir : Node → Bool
  | .file _ => false
  | .dir _ _ => true

/-- Go `path.Join(name, d1.Name())` as `fs.WalkDir` uses it, for an entry name that
is a valid path element: the root `.` contributes nothing. -/
def Join (name elem : String) : String :=
  if name = "." then elem else name ++ "/" ++ elem

/-- The error values that occur in `CaseInsensitiveFS.Open`. -/
inductive FSError where
  /-- The local value `found := errors.New("file found")`. -/
  | found
  /-- Go `fs.SkipDir`. -/
  | SkipDir
  /-- Go `fs.ErrNotExist`. -/
  | ErrNotExist
  /-- An error returned by the `Open` of the wrapped file system. -/
  | other (msg : String)
  deriving DecidableEq, Repr

/-- Go `fs.WalkDirFunc`, with the variables the closure captures passed as a state.
The `err` argument is left out: the tree is read without errors. -/
abbrev WalkDirFunc (σ : Type) := String → Node → σ → Option FSError × σ

mutual
/-- Go `fs.walkDir`: the function is called on the entry; an error, or an entry that
is no directory, ends the walk of this entry, `SkipDir` on a directory counting as no
error; otherwise the entries of the directory are walked. -/
def walkDir {σ : Type} (fn : WalkDirFunc σ) (name : String) (d : Node) (st : σ) :
    Option FSError × σ :=
  match d with
  | .file elem => fn name (.file elem) st
  | .dir elem entries =>
    match fn name (.dir elem entries) st with
    | (some err, st) => (if err = .SkipDir then none else some err, st)
    | (none, st) => walkEntries fn name entries st
/-- The loop `for _, d1 := range dirs` of Go `fs.walkDir`: `SkipDir` from an entry
breaks the loop, any other error is returned. -/
def walkEntries {σ : Type} (fn : WalkDirFunc σ) (name : String) (dirs : List Node) (st : σ) :
    Option FSError × σ :=
  match dirs with
  | [] => (none, st)
  | d1 :: rest =>
    match walkDir fn (Join name d1.Name) d1 st with
    | (some err, st) => (if err = .SkipDir then none else some err, st)
    | (none, st) => walkEntries fn name rest st
end

/-- Go `fs.WalkDir(fsys, ".", fn)` on a file system whose root lists `entries`. -/
def WalkDir {σ : Type} (entries : List Node) (fn : WalkDirFunc σ) (st : σ) :
    Option FSError × σ :=
  match walkDir fn "." (.dir "." entries) st with
  | (some err, st) => (if err = .SkipDir then none else some err, st)
  | (none, st) => (none, st)

mutual
/-- The paths `fs.WalkDir` would pass to its function on an unpruned walk of `d`. -/
def nodePaths (name : String) (d : Node) : List String :=
  match d with
  | .file _ => [name]
  | .dir _ entries => name :: entriesPaths name entries
/-- The paths of an unpruned walk of the entries of the directory `name`. -/
def entriesPaths (name : String) (dirs : List Node) : List String :=
  match dirs with
  | [] => []
  | d1 :: rest => nodePaths (Join name d1.Name) d1 ++ entriesPaths name rest
end

/-- Go `fs.FS` as `CaseInsensitiveFS` uses it: the tree that `fs.WalkDir` reads, and
the method `Open`. -/
structure FS (File : Type) where
  entries : List Node
  Open : String → Except String File

/-- Every path of the file tree, the root `.` included. -/
def FS.paths {File : Type} (fsys : FS File) : List String :=
  nodePaths "." (.dir "." fsys.entries)

/-- Go `CaseInsensitiveFS`. -/
structure CaseInsensitiveFS (File : Type) where
  fs : FS File

/-- The closure `fn` of `CaseInsensitiveFS.Open`; the state is the captured
variable `file`, nil (`none`) until an `Open` succeeds. -/
def openFn {File : Type} (lowerRune : Char → Char) (cifs : CaseInsensitiveFS File)
    (lower : String) : WalkDirFunc (Option File) :=
  fun path d file =>
    let lowerp := ToLower lowerRune path
    if lowerp = lower then
      match cifs.fs.Open path with
      | .error err => (some (.other err), none)
      | .ok f => (some .found, some f)
    else if path ≠ "." ∧ d.IsDir = true ∧ ¬ HasPrefix lower lowerp = true then
      (some .SkipDir, file)
    else
      (none, file)

/-- Go `CaseInsensitiveFS.Open`: the returned pair `(fs.File, error)`. -/
def CaseInsensitiveFS.Open {File : Type} (lowerRune : Char → Char)
    (cifs : CaseInsensitiveFS File) (name : String) : Option File × Option FSError :=
  let lower := ToLower lowerRune name
  match WalkDir cifs.fs.entries (openFn lowerRune cifs lower) none with
  | (some .found, file) => (file, none)
  | (_, _) => (none, some .ErrNotExist)

/-- A bundled tree with a directory and the file `foo.js`; `Open` returns the path. -/
def bundled : CaseInsensitiveFS String :=
  { fs := { entries := [.dir "Images" [.file "Logo.png"], .file "foo.js"],
            Open := fun path => .ok path } }

/-! ## `degreesToDecimal` (`generate_stations.go`)

The `float64` values are read as exact rationals: `strconv.ParseFloat` of a string of
decimal digits is the number written, the arithmetic is exact, and
`strconv.FormatFloat(x, 'f', 2, 32)` renders the rational rounded to two decimals.
`log.Fatalln` and an index out of range both end the program: they are the error
results. -/

/-- The pieces of a character list between occurrences of `sep`. -/
def splitChars (sep : Char) : List Char → List (List Char)
  | [] => [[]]
  | c :: cs =>
    if c = sep then [] :: splitChars sep cs
    else
      match splitChars sep cs with
      | [] => [[c]]
      | part :: parts => (c :: part) :: parts

/-- Go `strings.Split(s, sep)` for a separator of one character. -/
def Split (s : String) (sep : Char) : List String :=
  (splitChars sep s.data).map String.mk

/-- Go `strconv.ParseFloat(s, 32)` on a string of decimal digits; any other string is
reported as a syntax error. -/
def ParseFloat (s : String) : Except String ℚ :=
  if s.data ≠ [] ∧ s.data.all Char.isDigit = true then
    .ok ((s.data.foldl (fun n c => 10 * n + (c.toNat - '0'.toNat)) 0 : Nat) : ℚ)
  else
    .error ("strconv.ParseFloat: parsing " ++ s ++ ": invalid syntax")

/-- The integer nearest to `q`, the even one of two equally near. -/
def roundHalfEven (q : ℚ) : Int :=
  let f := Rat.floor q
  let r := q - f
  if r < 1 / 2 then f else if 1 / 2 < r then f + 1 else if f % 2 = 0 then f else f + 1

/-- Two decimal digits of a number below 100. -/
def twoDigits (n : Nat) : String :=
  if n < 10 then "0" ++ Nat.repr n else Nat.repr n

/-- Go `strconv.FormatFloat(x, 'f', 2, 32)` on an exact value: sign, integer part,
point, two decimals. -/
def FormatFloat (x : ℚ) : String :=
  let m := if x < 0 then -x else x
  let h := (roundHalfEven (m * 100)).toNat
  (if x < 0 then "-" else "") ++ Nat.repr (h / 100) ++ "." ++ twoDigits (h % 100)

/-- Go `degreesToDecimal`. -/
def degreesToDecimal (degreesminutes : String) : Except String String :=
  let split := Split degreesminutes ' '
  match split[0]? with
  | none => .error "index out of range"
  | some s0 =>
    match ParseFloat s0 with
    | .error err => .error ("Error parsing degrees: " ++ err)
    | .ok degrees =>
      match split[1]? with
      | none => .error "index out of range"
      | some s1 =>
        if s1.data.length < 2 then .error "slice bounds out of range"
        else
          match ParseFloat (String.mk (s1.data.take 2)) with
          | .error err => .error ("Error parsing minutes: " ++ err)
          | .ok minutes =>
            match s1.data[2]? with
            | none => .error "index out of range"
            | some hemisphere =>
              let sign : ℚ := if hemisphere = 'S' ∨ hemisphere = 'W' then -1 else 1
              .ok (FormatFloat (sign * degrees + minutes / 60))

/-! ## Concrete inputs -/

/-- A target on an allow-listed host. -/
def forecastURL : URL :=
  { Scheme := "https", Host := "forecast.weather.gov", Path := "/x", RawQuery := "" }

/-- The target `ftp://forecast.weather.gov`. -/
def ftpURL : URL :=
  { Scheme := "ftp", Host := "forecast.weather.gov", Path := "", RawQuery := "" }

/-- A target on the host with the five-minute expiry. -/
def niuURL : URL :=
  { Scheme := "http", Host := "www2.ehs.niu.edu", Path := "/r", RawQuery := "" }

/-- The cache of a process that has served nothing yet. -/
def emptyCache : Cache := fun _ => none

/-- A library that accepts every URL string in `http.NewRequest`. -/
def acceptAll : String → Option String := fun _ => none

/-- A response with the given status and a body that reads as `body`. -/
def respond (code : Int) (status : String) (body : Bytes) : Outcome :=
  .response { StatusCode := code, Status := status, Body := { ReadAll := .ok body } }

/-- A world in which the client returns the listed outcomes, then transport errors. -/
def worldOf (outcomes : List Outcome) (nowCheck nowStore : Time) : World :=
  { Do := fun _ i => outcomes.getD i (.error "connection refused"),
    nowCheck := nowCheck, nowStore := nowStore }

/-- The outcome 503. -/
def unavailable : Outcome := respond 503 "503 Service Unavailable" []

/-! ## Lemmas on the retry loop and the fetch -/

theorem mem_allowedHosts (h : String) :
    h ∈ allowedHosts ↔
      (h = "forecast.weather.gov" ∨ h = "api.weather.com" ∨
       h = "www.aviationweather.gov" ∨ h = "www.wunderground.com" ∨
       h = "api-ak.wunderground.com" ∨ h = "tidesandcurrents.noaa.gov" ∨
       h = "l-36.com" ∨ h = "airquality.weather.gov" ∨ h = "airnow.gov" ∨
       h = "www.airnowapi.org" ∨ h = "alerts.weather.gov" ∨
       h = "mesonet.agron.iastate.edu" ∨ h = "tgftp.nws.noaa.gov" ∨
       h = "www.cpc.ncep.noaa.gov" ∨ h = "radar.weather.gov" ∨
       h = "www2.ehs.niu.edu" ∨ h = "api.usno.navy.mil") := by
  simp [allowedHosts]

/-- A retriable outcome sends the loop to its next iteration. -/
theorem fetchLoop_retry (host : String) (Do : Nat → Outcome) (remaining retries : Nat)
    (h : (Do retries).retriable) :
    fetchLoop host Do (remaining + 1) retries = fetchLoop host Do remaining (retries + 1) := by
  rw [fetchLoop]
  cases hd : Do retries with
  | error e => rfl
  | response resp =>
    rw [hd] at h
    have h5 : 500 ≤ resp.StatusCode ∧ resp.StatusCode < 600 := h
    have hne : resp.StatusCode ≠ StatusOK := by
      unfold StatusOK; omega
    simp only [hne, ne_eq, not_false_eq_true, if_true, ge_iff_le, h5, and_self]

/-- After `k` retriable outcomes the loop is where it would be had it started there. -/
theorem fetchLoop_skip (host : String) (Do : Nat → Outcome) (k remaining retries : Nat)
    (h : ∀ i, i < k → (Do (retries + i)).retriable) :
    fetchLoop host Do (remaining + k) retries = fetchLoop host Do remaining (retries + k) := by
  induction k generalizing retries with
  | zero => rfl
  | succ k ih =>
    have h0 : (Do retries).retriable := by simpa using h 0 (Nat.succ_pos k)
    have hrest : ∀ i, i < k → (Do (retries + 1 + i)).retriable := by
      intro i hi
      have := h (i + 1) (Nat.succ_lt_succ hi)
      rwa [show retries + (i + 1) = retries + 1 + i by omega] at this
    rw [show remaining + (k + 1) = (remaining + k) + 1 by omega, fetchLoop_retry _ _ _ _ h0,
      ih (retries + 1) hrest, show retries + 1 + k = retries + (k + 1) by omega]

/-- A 200 response ends the loop with its body. -/
theorem fetchLoop_ok (host : String) (Do : Nat → Outcome) (remaining retries : Nat)
    (resp : Response) (hd : Do retries = .response resp) (h : resp.StatusCode = StatusOK) :
    fetchLoop host Do (remaining + 1) retries = (.finished (some resp.Body), retries + 1) := by
  rw [fetchLoop, hd]
  simp [h]

/-- A response that is neither 200 nor 5xx makes the loop return the error. -/
theorem fetchLoop_other (host : String) (Do : Nat → Outcome) (remaining retries : Nat)
    (resp : Response) (hd : Do retries = .response resp) (h : resp.StatusCode ≠ StatusOK)
    (h5 : ¬ (500 ≤ resp.StatusCode ∧ resp.StatusCode < 600)) :
    fetchLoop host Do (remaining + 1) retries =
      (.returned (host ++ " says: " ++ resp.Status), retries + 1) := by
  rw [fetchLoop, hd]
  simp only [h, ne_eq, not_false_eq_true, if_true, ge_iff_le, h5, if_false]

/-- The request sent is `requestFor u`. -/
theorem NewRequest_ok (requestError : String → Option String) (u : URL)
    (h : requestError u.String = none) :
    NewRequest requestError MethodGet u.String =
      .ok { Method := MethodGet, URL := u.String, Header := [] } := by
  simp [NewRequest, h]

/-- Every fetch starts by building the request. -/
theorem fetch_calls_head (requestError : String → Option String) (u : URL)
    (Do : Request → Nat → Outcome) :
    ∃ rest, (fetch requestError u Do).2 = Event.NewRequest u.String :: rest := by
  unfold fetch
  split
  · exact ⟨_, rfl⟩
  · dsimp only
    split
    · exact ⟨_, rfl⟩
    · exact ⟨_, rfl⟩
    · split
      · exact ⟨_, rfl⟩
      · exact ⟨_, rfl⟩

/-- The loop never reports fewer calls than the iteration it started in. -/
theorem fetchLoop_attempts_ge (host : String) (Do : Nat → Outcome) (remaining retries : Nat) :
    retries ≤ (fetchLoop host Do remaining retries).2 := by
  induction remaining generalizing retries with
  | zero => simp [fetchLoop]
  | succ n ih =>
    rw [fetchLoop]
    split
    · exact Nat.le_trans (Nat.le_succ _) (ih (retries + 1))
    · split
      · split
        · exact Nat.le_trans (Nat.le_succ _) (ih (retries + 1))
        · exact Nat.le_succ _
      · exact Nat.le_succ _

/-- A loop with an iteration left calls the client at least once. -/
theorem fetchLoop_attempts_pos (host : String) (Do : Nat → Outcome) (remaining retries : Nat) :
    retries + 1 ≤ (fetchLoop host Do (remaining + 1) retries).2 := by
  rw [fetchLoop]
  split
  · exact fetchLoop_attempts_ge host Do remaining (retries + 1)
  · split
    · split
      · exact fetchLoop_attempts_ge host Do remaining (retries + 1)
      · exact Nat.le_refl _
    · exact Nat.le_refl _

/-- A loop left with a body got it from a 200 response, after retriable outcomes only. -/
theorem fetchLoop_body (host : String) (Do : Nat → Outcome) (remaining retries : Nat)
    (body : Body) (attempts : Nat)
    (h : fetchLoop host Do remaining retries = (.finished (some body), attempts)) :
    ∃ k resp, k < remaining ∧ attempts = retries + k + 1 ∧
      (∀ i, i < k → (Do (retries + i)).retriable) ∧
      Do (retries + k) = .response resp ∧ resp.StatusCode = StatusOK ∧ resp.Body = body := by
  induction remaining generalizing retries with
  | zero => simp [fetchLoop] at h
  | succ n ih =>
    have step : ∀ (_ : (Do retries).retriable)
        (_ : fetchLoop host Do n (retries + 1) = (.finished (some body), attempts)),
        ∃ k resp, k < n + 1 ∧ attempts = retries + k + 1 ∧
          (∀ i, i < k → (Do (retries + i)).retriable) ∧
          Do (retries + k) = .response resp ∧ resp.StatusCode = StatusOK ∧
          resp.Body = body := by
      intro h0 hrec
      obtain ⟨k, resp, hk, ha, hall, hd, hs, hb⟩ := ih (retries + 1) hrec
      refine ⟨k + 1, resp, Nat.succ_lt_succ hk, by omega, ?_, ?_, hs, hb⟩
      · intro i hi
        cases i with
        | zero => simpa using h0
        | succ j =>
          have := hall j (by omega)
          rwa [show retries + 1 + j = retries + (j + 1) by omega] at this
      · rwa [show retries + 1 + k = retries + (k + 1) by omega] at hd
    rw [fetchLoop] at h
    cases hd : Do retries with
    | error e =>
      rw [hd] at h
      exact step (by rw [hd]; trivial) h
    | response resp =>
      rw [hd] at h
      dsimp only at h
      by_cases hs : resp.StatusCode = StatusOK
      · simp only [hs, ne_eq, not_true_eq_false, if_false, Prod.mk.injEq,
          LoopExit.finished.injEq, Option.some.injEq] at h
        exact ⟨0, resp, Nat.succ_pos n, by omega, by intro i hi; omega, by simpa using hd,
          hs, h.1⟩
      · by_cases h5 : 500 ≤ resp.StatusCode ∧ resp.StatusCode < 600
        · simp only [hs, ne_eq, not_false_eq_true, if_true, ge_iff_le, h5, and_self] at h
          exact step (by rw [hd]; exact h5) h
        · simp only [hs, ne_eq, not_false_eq_true, if_true, ge_iff_le, h5, if_false,
            Prod.mk.injEq] at h
          exact absurd h.1 (by simp)

/-- With every iteration retriable the loop ends by its condition, `body` still nil. -/
theorem fetchLoop_exhausted (host : String) (Do : Nat → Outcome)
    (h : ∀ i, i < maxRetries → (Do i).retriable) :
    fetchLoop host Do maxRetries 0 = (.finished none, maxRetries) := by
  have := fetchLoop_skip host Do maxRetries 0 0 (by simpa using h)
  simpa [fetchLoop] using this

/-- The loop after `k` retriable outcomes and a 200 response. -/
theorem fetchLoop_success (host : String) (Do : Nat → Outcome) (k : Nat) (resp : Response)
    (hk : k < maxRetries) (h : ∀ i, i < k → (Do i).retriable)
    (hd : Do k = .response resp) (hs : resp.StatusCode = StatusOK) :
    fetchLoop host Do maxRetries 0 = (.finished (some resp.Body), k + 1) := by
  obtain ⟨m, hm⟩ : ∃ m, maxRetries = (m + 1) + k := ⟨maxRetries - k - 1, by omega⟩
  rw [hm, fetchLoop_skip host Do k (m + 1) 0 (by simpa using h)]
  simpa using fetchLoop_ok host Do m (0 + k) resp (by simpa using hd) hs

/-- The first `attempts` calls of the client. -/
theorem mem_doEvents (req : Request) (attempts i : Nat) :
    Event.Do req i ∈ doEvents req attempts ↔ i < attempts := by
  simp [doEvents]

/-- The fetch when `http.NewRequest` accepts the URL, in terms of the loop. -/
theorem fetch_eq (requestError : String → Option String) (u : URL)
    (Do : Request → Nat → Outcome) (h : requestError u.String = none) :
    fetch requestError u Do =
      match fetchLoop u.Host (Do (requestFor u)) maxRetries 0 with
      | (.returned err, attempts) =>
        (.error err, .NewRequest u.String :: doEvents (requestFor u) attempts)
      | (.finished none, attempts) =>
        (.error "failed to get", .NewRequest u.String :: doEvents (requestFor u) attempts)
      | (.finished (some body), attempts) =>
        match body.ReadAll with
        | .error err =>
          (.error err, .NewRequest u.String :: (doEvents (requestFor u) attempts ++ [.ReadAll]))
        | .ok content =>
          (.ok content,
            .NewRequest u.String :: (doEvents (requestFor u) attempts ++ [.ReadAll])) := by
  unfold fetch
  rw [NewRequest_ok requestError u h]
  rfl

/-- The fetch when `http.NewRequest` rejects the URL: no call of the client. -/
theorem fetch_requestError (requestError : String → Option String) (u : URL)
    (Do : Request → Nat → Outcome) (err : String) (h : requestError u.String = some err) :
    fetch requestError u Do = (.error err, [.NewRequest u.String]) := by
  simp [fetch, NewRequest, h]

/-- A fetch whose request was built calls the client. -/
theorem fetch_calls_do (requestError : String → Option String) (u : URL)
    (Do : Request → Nat → Outcome) (h : requestError u.String = none) :
    Event.Do (requestFor u) 0 ∈ (fetch requestError u Do).2 := by
  have hpos := fetchLoop_attempts_pos u.Host (Do (requestFor u)) 2 0
  have hm : ∀ a, 0 + 1 ≤ a → Event.Do (requestFor u) 0 ∈ doEvents (requestFor u) a := by
    intro a ha
    exact (mem_doEvents _ _ _).2 (by omega)
  rw [fetch_eq requestError u Do h]
  change 0 + 1 ≤ (fetchLoop u.Host (Do (requestFor u)) maxRetries 0).2 at hpos
  generalize fetchLoop u.Host (Do (requestFor u)) maxRetries 0 = lr at hpos
  rcases lr with ⟨ex, a⟩
  have := hm a hpos
  cases ex with
  | returned err => simp [this]
  | finished body =>
    cases body with
    | none => simp [this]
    | some b =>
      dsimp only
      cases b.ReadAll <;> simp [this]

/-- A successful fetch returns the body of a 200 response that followed retriable
outcomes only, and its calls are the request, the attempts and the read. -/
theorem fetch_ok_inv (requestError : String → Option String) (u : URL)
    (Do : Request → Nat → Outcome) (content : Bytes)
    (h : (fetch requestError u Do).1 = .ok content) :
    requestError u.String = none ∧
    ∃ k resp, k < maxRetries ∧ (∀ i, i < k → (Do (requestFor u) i).retriable) ∧
      Do (requestFor u) k = .response resp ∧ resp.StatusCode = StatusOK ∧
      resp.Body.ReadAll = .ok content ∧
      (fetch requestError u Do).2 =
        .NewRequest u.String :: (doEvents (requestFor u) (k + 1) ++ [.ReadAll]) := by
  cases hr : requestError u.String with
  | some err => rw [fetch_requestError requestError u Do err hr] at h; simp at h
  | none =>
    refine ⟨rfl, ?_⟩
    rw [fetch_eq requestError u Do hr] at h ⊢
    cases hl : fetchLoop u.Host (Do (requestFor u)) maxRetries 0 with
    | mk ex a =>
      rw [hl] at h
      cases ex with
      | returned err => simp at h
      | finished body =>
        cases body with
        | none => simp at h
        | some b =>
          obtain ⟨k, resp, hk, ha, hall, hd, hs, hb⟩ := fetchLoop_body _ _ _ _ _ _ hl
          dsimp only at h ⊢
          cases hb2 : b.ReadAll with
          | error err => rw [hb2] at h; simp at h
          | ok c =>
            rw [hb2] at h
            have hc : c = content := by simpa using h
            refine ⟨k, resp, hk, ?_, by simpa using hd, hs, by rw [hb, hb2, hc], ?_⟩
            · intro i hi; simpa using hall i hi
            · have : a = k + 1 := by omega
              rw [this]

theorem LoadOrStore_some (cache : Cache) (key : String) (e : cacheEntry)
    (h : cache key = some e) :
    LoadOrStore cache key ({ } : cacheEntry) = (e, true, cache) := by
  simp [LoadOrStore, h]

theorem LoadOrStore_none (cache : Cache) (key : String) (h : cache key = none) :
    LoadOrStore cache key ({ } : cacheEntry) =
      (({ } : cacheEntry), false, Function.update cache key (some ({ } : cacheEntry))) := by
  simp [LoadOrStore, h]

/-- Storing the empty entry changes no entry as `entryOf` reads it. -/
theorem entryOf_stored (cache : Cache) (key k : String) :
    entryOf (stored cache key) k = entryOf cache k := by
  unfold stored entryOf
  cases h : cache key with
  | some e => rw [LoadOrStore_some cache key e h]
  | none =>
    rw [LoadOrStore_none cache key h]
    by_cases hk : k = key
    · subst hk; simp [h]
    · simp [Function.update_noteq hk]

theorem stored_other (cache : Cache) (key k : String) (hk : k ≠ key) :
    stored cache key k = cache k := by
  unfold stored
  cases h : cache key with
  | some e => rw [LoadOrStore_some cache key e h]
  | none => rw [LoadOrStore_none cache key h]; simp [Function.update_noteq hk]

theorem stored_cases (cache : Cache) (key : String) :
    stored cache key = cache ∨
      (cache key = none ∧
        stored cache key = Function.update cache key (some ({ } : cacheEntry))) := by
  unfold stored
  cases h : cache key with
  | some e => left; rw [LoadOrStore_some cache key e h]
  | none => right; rw [LoadOrStore_none cache key h]; exact ⟨rfl, rfl⟩

/-! ## Lemmas on `getURL` -/

theorem getURL_badScheme (requestError : String → Option String) (cache : Cache) (u : URL)
    (w : World) (h : ¬ (u.Scheme = "http" ∨ u.Scheme = "https")) :
    getURL requestError cache u w =
      { result := .error "unsupported scheme", cache := cache, trace := [] } := by
  have h2 : u.Scheme ≠ "http" ∧ u.Scheme ≠ "https" := by
    constructor <;> intro hc <;> exact h (by simp [hc])
  simp [getURL, h2]

theorem scheme_guard (u : URL) (h : u.Scheme = "http" ∨ u.Scheme = "https") :
    ¬ (u.Scheme ≠ "http" ∧ u.Scheme ≠ "https") := by
  rintro ⟨h1, h2⟩
  rcases h with h | h <;> contradiction

/-- A fresh entry is served: one map lookup, nothing else. -/
theorem getURL_hit (requestError : String → Option String) (cache : Cache) (u : URL)
    (w : World) (e : cacheEntry) (hs : u.Scheme = "http" ∨ u.Scheme = "https")
    (hc : cache u.String = some e) (hb : Before w.nowCheck e.Expires) :
    getURL requestError cache u w =
      { result := .ok e.Content, cache := cache, trace := [.LoadOrStore u.String] } := by
  unfold getURL
  rw [if_neg (scheme_guard u hs), LoadOrStore_some cache u.String e hc]
  simp [hb]

/-- An absent or stale entry is fetched. -/
theorem getURL_miss (requestError : String → Option String) (cache : Cache) (u : URL)
    (w : World) (hs : u.Scheme = "http" ∨ u.Scheme = "https")
    (hm : ∀ e, cache u.String = some e → ¬ Before w.nowCheck e.Expires) :
    getURL requestError cache u w =
      match fetch requestError u w.Do with
      | (.error err, calls) =>
        { result := .error err, cache := stored cache u.String,
          trace := .LoadOrStore u.String :: calls }
      | (.ok content, calls) =>
        { result := .ok content,
          cache := Function.update (stored cache u.String) u.String
            (some { Content := content, Expires := Add w.nowStore (expiryDuration u.Host) }),
          trace := .LoadOrStore u.String :: calls } := by
  unfold getURL stored
  rw [if_neg (scheme_guard u hs)]
  cases hc : cache u.String with
  | some e =>
    rw [LoadOrStore_some cache u.String e hc]
    have := hm e hc
    simp [this]
  | none =>
    rw [LoadOrStore_none cache u.String hc]
    simp

/-- A call that built a request was a miss. -/
theorem getURL_fetched (requestError : String → Option String) (cache : Cache) (u : URL)
    (w : World) (h : Event.NewRequest u.String ∈ (getURL requestError cache u w).trace) :
    (u.Scheme = "http" ∨ u.Scheme = "https") ∧
      ∀ e, cache u.String = some e → ¬ Before w.nowCheck e.Expires := by
  by_cases hs : u.Scheme = "http" ∨ u.Scheme = "https"
  · refine ⟨hs, ?_⟩
    intro e hc hb
    rw [getURL_hit requestError cache u w e hs hc hb] at h
    simp at h
  · rw [getURL_badScheme requestError cache u w hs] at h
    simp at h

/-- An absent or stale entry: the result, the trace and the cache, by the fetch. -/
theorem getURL_miss_parts (requestError : String → Option String) (cache : Cache) (u : URL)
    (w : World) (hs : u.Scheme = "http" ∨ u.Scheme = "https")
    (hm : ∀ e, cache u.String = some e → ¬ Before w.nowCheck e.Expires) :
    (getURL requestError cache u w).result = (fetch requestError u w.Do).1 ∧
    (getURL requestError cache u w).trace =
      .LoadOrStore u.String :: (fetch requestError u w.Do).2 ∧
    (getURL requestError cache u w).cache =
      match (fetch requestError u w.Do).1 with
      | .error _ => stored cache u.String
      | .ok content =>
        Function.update (stored cache u.String) u.String
          (some { Content := content, Expires := Add w.nowStore (expiryDuration u.Host) }) := by
  rw [getURL_miss requestError cache u w hs hm]
  rcases hf : fetch requestError u w.Do with ⟨res, calls⟩
  cases res <;> exact ⟨rfl, rfl, rfl⟩

/-! ## The allow-list and the scheme test (C1) -/

/-- C1: a parsed target reaches the cache lookup of `getURL` if and only if its
scheme is exactly `http` or `https` and its host is exactly one of the 17 hosts of
the `switch`; any other target is answered with an error (`invalid host`, or
`unsupported scheme`), with no call on the cache or the client and the cache as it
was. A subdomain, another letter case and a port suffix are other hosts. -/
theorem proxyRequest_accepts_iff (requestError : String → Option String) (cache : Cache)
    (u : URL) (w : World) :
    (Event.LoadOrStore u.String ∈ (proxyRequest requestError cache (.ok u) w).trace ↔
      (u.Scheme = "http" ∨ u.Scheme = "https") ∧
      (u.Host = "forecast.weather.gov" ∨ u.Host = "api.weather.com" ∨
       u.Host = "www.aviationweather.gov" ∨ u.Host = "www.wunderground.com" ∨
       u.Host = "api-ak.wunderground.com" ∨ u.Host = "tidesandcurrents.noaa.gov" ∨
       u.Host = "l-36.com" ∨ u.Host = "airquality.weather.gov" ∨ u.Host = "airnow.gov" ∨
       u.Host = "www.airnowapi.org" ∨ u.Host = "alerts.weather.gov" ∨
       u.Host = "mesonet.agron.iastate.edu" ∨ u.Host = "tgftp.nws.noaa.gov" ∨
       u.Host = "www.cpc.ncep.noaa.gov" ∨ u.Host = "radar.weather.gov" ∨
       u.Host = "www2.ehs.niu.edu" ∨ u.Host = "api.usno.navy.mil")) ∧
    (Event.LoadOrStore u.String ∈ (proxyRequest requestError cache (.ok u) w).trace ∨
      (((proxyRequest requestError cache (.ok u) w).written =
            .Error "invalid host" StatusBadRequest ∨
        (proxyRequest requestError cache (.ok u) w).written =
            .Error "unsupported scheme" StatusInternalServerError) ∧
       (proxyRequest requestError cache (.ok u) w).trace = [] ∧
       (proxyRequest requestError cache (.ok u) w).cache = cache)) ∧
    (proxyRequest requestError cache
        (.ok { u with Scheme := "https", Host := "www.forecast.weather.gov" }) w).written =
      .Error "invalid host" StatusBadRequest ∧
    (proxyRequest requestError cache
        (.ok { u with Scheme := "https", Host := "Forecast.Weather.Gov" }) w).written =
      .Error "invalid host" StatusBadRequest ∧
    (proxyRequest requestError cache
        (.ok { u with Scheme := "https", Host := "forecast.weather.gov:443" }) w).written =
      .Error "invalid host" StatusBadRequest := by
  have key : (Event.LoadOrStore u.String ∈ (proxyRequest requestError cache (.ok u) w).trace ↔
      (u.Scheme = "http" ∨ u.Scheme = "https") ∧ u.Host ∈ allowedHosts) ∧
      (Event.LoadOrStore u.String ∈ (proxyRequest requestError cache (.ok u) w).trace ∨
      (((proxyRequest requestError cache (.ok u) w).written =
            .Error "invalid host" StatusBadRequest ∨
        (proxyRequest requestError cache (.ok u) w).written =
            .Error "unsupported scheme" StatusInternalServerError) ∧
       (proxyRequest requestError cache (.ok u) w).trace = [] ∧
       (proxyRequest requestError cache (.ok u) w).cache = cache)) := by
    by_cases hh : u.Host ∈ allowedHosts
    · by_cases hs : u.Scheme = "http" ∨ u.Scheme = "https"
      · have hmem : Event.LoadOrStore u.String ∈
            (proxyRequest requestError cache (.ok u) w).trace := by
          have ht : (proxyRequest requestError cache (.ok u) w).trace =
              (getURL requestError cache u w).trace := by
            simp only [proxyRequest, hh, if_true]
            cases (getURL requestError cache u w).result <;> rfl
          rw [ht]
          by_cases hf : ∃ e, cache u.String = some e ∧ Before w.nowCheck e.Expires
          · obtain ⟨e, hc, hb⟩ := hf
            rw [getURL_hit requestError cache u w e hs hc hb]
            simp
          · have hm : ∀ e, cache u.String = some e → ¬ Before w.nowCheck e.Expires :=
              fun e hc hb => hf ⟨e, hc, hb⟩
            rw [(getURL_miss_parts requestError cache u w hs hm).2.1]
            simp
        exact ⟨⟨fun _ => ⟨hs, hh⟩, fun _ => hmem⟩, Or.inl hmem⟩
      · have hp : proxyRequest requestError cache (.ok u) w =
            { written := .Error "unsupported scheme" StatusInternalServerError,
              cache := cache, trace := [] } := by
          simp only [proxyRequest, hh, if_true, getURL_badScheme requestError cache u w hs]
        rw [hp]
        exact ⟨⟨fun h => by simp at h, fun h => absurd h.1 hs⟩, Or.inr ⟨Or.inr rfl, rfl, rfl⟩⟩
    · have hp : proxyRequest requestError cache (.ok u) w =
          { written := .Error "invalid host" StatusBadRequest, cache := cache, trace := [] } := by
        simp only [proxyRequest, hh, if_false]
      rw [hp]
      exact ⟨⟨fun h => by simp at h, fun h => absurd h.2 hh⟩, Or.inr ⟨Or.inl rfl, rfl, rfl⟩⟩
  rw [mem_allowedHosts] at key
  refine ⟨key.1, key.2, ?_, ?_, ?_⟩ <;> simp [proxyRequest, allowedHosts]

/-! ## Serving from the cache until the expiry (C2) -/

/-- What a successful fetch leaves under the key. -/
theorem getURL_fetch_stores (requestError : String → Option String) (cache : Cache) (u : URL)
    (w : World) (content : Bytes)
    (hfetch : Event.NewRequest u.String ∈ (getURL requestError cache u w).trace)
    (hok : (getURL requestError cache u w).result = .ok content) :
    (getURL requestError cache u w).cache u.String =
      some { Content := content, Expires := Add w.nowStore (expiryDuration u.Host) } ∧
    (fetch requestError u w.Do).1 = .ok content := by
  obtain ⟨hs, hm⟩ := getURL_fetched requestError cache u w hfetch
  obtain ⟨hres, -, hcache⟩ := getURL_miss_parts requestError cache u w hs hm
  rw [hres] at hok
  rw [hcache, hok]
  exact ⟨by simp, rfl⟩

/-- C2: after a call of `getURL(u)` that fetched successfully, storing at time `t`
and returning `C`, the next call on `u` (the entry of `u` untouched in between)
returns `C` with the map lookup as its only call when its clock reads strictly
before `t + TTL(u.Host)`, and otherwise builds the request and calls the client
again, whatever that fetch then yields. -/
theorem getURL_fresh_or_refetch (requestError : String → Option String) (cache cache2 : Cache)
    (u : URL) (w1 w2 : World) (C : Bytes)
    (hfetch : Event.NewRequest u.String ∈ (getURL requestError cache u w1).trace)
    (hok : (getURL requestError cache u w1).result = .ok C)
    (hsame : cache2 u.String = (getURL requestError cache u w1).cache u.String) :
    (w2.nowCheck < w1.nowStore + expiryDuration u.Host ∧
      (getURL requestError cache2 u w2).result = .ok C ∧
      (getURL requestError cache2 u w2).trace = [.LoadOrStore u.String] ∧
      (getURL requestError cache2 u w2).cache = cache2) ∨
    (w1.nowStore + expiryDuration u.Host ≤ w2.nowCheck ∧
      Event.NewRequest u.String ∈ (getURL requestError cache2 u w2).trace ∧
      Event.Do (requestFor u) 0 ∈ (getURL requestError cache2 u w2).trace) := by
  obtain ⟨hs, -⟩ := getURL_fetched requestError cache u w1 hfetch
  obtain ⟨hst, hf1⟩ := getURL_fetch_stores requestError cache u w1 C hfetch hok
  obtain ⟨hreq, -⟩ := fetch_ok_inv requestError u w1.Do C hf1
  rw [hst] at hsame
  by_cases hb : w2.nowCheck < w1.nowStore + expiryDuration u.Host
  · left
    rw [getURL_hit requestError cache2 u w2 _ hs hsame hb]
    exact ⟨hb, rfl, rfl, rfl⟩
  · right
    have hm : ∀ e, cache2 u.String = some e → ¬ Before w2.nowCheck e.Expires := by
      intro e he
      rw [hsame] at he
      have : e = { Content := C, Expires := Add w1.nowStore (expiryDuration u.Host) } := by
        simpa using he.symm
      rw [this]
      exact hb
    obtain ⟨-, htr, -⟩ := getURL_miss_parts requestError cache2 u w2 hs hm
    obtain ⟨rest, hrest⟩ := fetch_calls_head requestError u w2.Do
    refine ⟨Int.not_lt.mp hb, ?_, ?_⟩
    · rw [htr, hrest]; simp
    · rw [htr]
      exact List.mem_cons_of_mem _ (fetch_calls_do requestError u w2.Do hreq)

/-- C2 at `https://forecast.weather.gov/x`: a fetch of `[1, 2]` stored at time 10,
then a call one nanosecond before the hour is up. -/
theorem getURL_fresh_or_refetch_witness :
    Event.NewRequest forecastURL.String ∈
      (getURL acceptAll emptyCache forecastURL
        (worldOf [respond 200 "200 OK" [1, 2]] 0 10)).trace ∧
    (getURL acceptAll emptyCache forecastURL
        (worldOf [respond 200 "200 OK" [1, 2]] 0 10)).result = .ok [1, 2] ∧
    ((Hour + 9 < 10 + expiryDuration forecastURL.Host ∧
      (getURL acceptAll
          (getURL acceptAll emptyCache forecastURL
            (worldOf [respond 200 "200 OK" [1, 2]] 0 10)).cache
          forecastURL (worldOf [] (Hour + 9) (Hour + 9))).result = .ok [1, 2] ∧
      (getURL acceptAll
          (getURL acceptAll emptyCache forecastURL
            (worldOf [respond 200 "200 OK" [1, 2]] 0 10)).cache
          forecastURL (worldOf [] (Hour + 9) (Hour + 9))).trace =
        [.LoadOrStore forecastURL.String] ∧
      (getURL acceptAll
          (getURL acceptAll emptyCache forecastURL
            (worldOf [respond 200 "200 OK" [1, 2]] 0 10)).cache
          forecastURL (worldOf [] (Hour + 9) (Hour + 9))).cache =
        (getURL acceptAll emptyCache forecastURL
            (worldOf [respond 200 "200 OK" [1, 2]] 0 10)).cache) ∨
     (10 + expiryDuration forecastURL.Host ≤ Hour + 9 ∧
      Event.NewRequest forecastURL.String ∈
        (getURL acceptAll
          (getURL acceptAll emptyCache forecastURL
            (worldOf [respond 200 "200 OK" [1, 2]] 0 10)).cache
          forecastURL (worldOf [] (Hour + 9) (Hour + 9))).trace ∧
      Event.Do (requestFor forecastURL) 0 ∈
        (getURL acceptAll
          (getURL acceptAll emptyCache forecastURL
            (worldOf [respond 200 "200 OK" [1, 2]] 0 10)).cache
          forecastURL (worldOf [] (Hour + 9) (Hour + 9))).trace)) :=
  ⟨by decide, by decide,
    getURL_fresh_or_refetch acceptAll emptyCache _ forecastURL
      (worldOf [respond 200 "200 OK" [1, 2]] 0 10) (worldOf [] (Hour + 9) (Hour + 9)) [1, 2]
      (by decide) (by decide) rfl⟩

/-! ## A failed call leaves the entry as it was (C3) -/

/-- What a call that returns an error does to the cache: nothing, or it stored the
empty entry under a key that had none. -/
theorem getURL_error_cache (requestError : String → Option String) (cache : Cache) (u : URL)
    (w : World) (err : String) (herr : (getURL requestError cache u w).result = .error err) :
    (getURL requestError cache u w).cache = cache ∨
      (getURL requestError cache u w).cache = stored cache u.String := by
  by_cases hs : u.Scheme = "http" ∨ u.Scheme = "https"
  · by_cases hf : ∃ e, cache u.String = some e ∧ Before w.nowCheck e.Expires
    · obtain ⟨e, hc, hb⟩ := hf
      rw [getURL_hit requestError cache u w e hs hc hb]
      exact Or.inl rfl
    · have hm : ∀ e, cache u.String = some e → ¬ Before w.nowCheck e.Expires :=
        fun e hc hb => hf ⟨e, hc, hb⟩
      obtain ⟨hres, -, hcache⟩ := getURL_miss_parts requestError cache u w hs hm
      rw [hres] at herr
      rw [hcache, herr]
      exact Or.inr rfl
  · rw [getURL_badScheme requestError cache u w hs]
    exact Or.inl rfl

/-- C3 as stated fails for the unsupported scheme: `getURL(ftp://forecast.weather.gov)`
on the empty cache returns the error and creates no entry, and the next call on the
same URL, made while the key is still unseen, calls neither the map nor the client:
it performs no fetch. -/
theorem getURL_ftp_no_refetch :
    (getURL acceptAll emptyCache ftpURL (worldOf [respond 200 "200 OK" [1]] 5 6)).result =
      .error "unsupported scheme" ∧
    (getURL acceptAll emptyCache ftpURL (worldOf [respond 200 "200 OK" [1]] 5 6)).cache
      ftpURL.String = none ∧
    ¬ Before 7 (entryOf
      (getURL acceptAll emptyCache ftpURL (worldOf [respond 200 "200 OK" [1]] 5 6)).cache
      ftpURL.String).Expires ∧
    (getURL acceptAll
      (getURL acceptAll emptyCache ftpURL (worldOf [respond 200 "200 OK" [1]] 5 6)).cache
      ftpURL (worldOf [respond 200 "200 OK" [1]] 7 8)).trace = [] := by
  decide

/-- C3, amended: when `getURL(u)` returns an error, the content and expiry under the
key of `u` read as before the call (an unseen key reads as empty content and zero
expiry), and every other key holds what it held; and when the scheme of `u` is `http`
or `https`, the next `getURL(u)` whose clock is not before that expiry builds the
request again, and calls the client again if the request can be built. -/
theorem getURL_error_keeps_entry (requestError : String → Option String) (cache : Cache)
    (u : URL) (w : World) (err : String)
    (herr : (getURL requestError cache u w).result = .error err) :
    entryOf (getURL requestError cache u w).cache u.String = entryOf cache u.String ∧
    (∀ k, k ≠ u.String → (getURL requestError cache u w).cache k = cache k) ∧
    (∀ w2 : World, (u.Scheme = "http" ∨ u.Scheme = "https") →
      ¬ Before w2.nowCheck (entryOf cache u.String).Expires →
      Event.NewRequest u.String ∈
        (getURL requestError (getURL requestError cache u w).cache u w2).trace ∧
      (requestError u.String = none →
        Event.Do (requestFor u) 0 ∈
          (getURL requestError (getURL requestError cache u w).cache u w2).trace)) := by
  have hc := getURL_error_cache requestError cache u w err herr
  have hentry : ∀ k, entryOf (getURL requestError cache u w).cache k = entryOf cache k := by
    intro k
    rcases hc with h | h <;> rw [h]
    exact entryOf_stored cache u.String k
  refine ⟨hentry _, ?_, ?_⟩
  · intro k hk
    rcases hc with h | h <;> rw [h]
    exact stored_other cache u.String k hk
  · intro w2 hs hstale
    have hm : ∀ e, (getURL requestError cache u w).cache u.String = some e →
        ¬ Before w2.nowCheck e.Expires := by
      intro e he
      have := hentry u.String
      rw [entryOf, he] at this
      simp only [Option.getD_some] at this
      rw [this]
      exact hstale
    obtain ⟨-, htr, -⟩ := getURL_miss_parts requestError _ u w2 hs hm
    obtain ⟨rest, hrest⟩ := fetch_calls_head requestError u w2.Do
    refine ⟨?_, ?_⟩
    · rw [htr, hrest]; simp
    · intro hreq
      rw [htr]
      exact List.mem_cons_of_mem _ (fetch_calls_do requestError u w2.Do hreq)

/-- C3, amended, at `https://forecast.weather.gov/x` with three 503 responses on the
empty cache, and a next call at time 7. -/
theorem getURL_error_keeps_entry_witness :
    (getURL acceptAll emptyCache forecastURL
        (worldOf [unavailable, unavailable, unavailable] 5 6)).result =
      .error "failed to get" ∧
    entryOf (getURL acceptAll emptyCache forecastURL
        (worldOf [unavailable, unavailable, unavailable] 5 6)).cache forecastURL.String =
      { Expires := 0, Content := [] } ∧
    Event.Do (requestFor forecastURL) 0 ∈
      (getURL acceptAll
        (getURL acceptAll emptyCache forecastURL
          (worldOf [unavailable, unavailable, unavailable] 5 6)).cache
        forecastURL (worldOf [respond 200 "200 OK" [1]] 7 8)).trace :=
  ⟨by decide,
    (getURL_error_keeps_entry acceptAll emptyCache forecastURL
      (worldOf [unavailable, unavailable, unavailable] 5 6) "failed to get" (by decide)).1,
    ((getURL_error_keeps_entry acceptAll emptyCache forecastURL
      (worldOf [unavailable, unavailable, unavailable] 5 6) "failed to get" (by decide)).2.2
      (worldOf [respond 200 "200 OK" [1]] 7 8) (by decide) (by decide)).2 rfl⟩

/-! ## The retry loop (C4, C5, C6) -/

/-- C4: when each of the first three outcomes is a transport error or a status in
500..599, the loop of `getURL` calls the client exactly three times, in iterations
0, 1 and 2, ends with `body` nil, and `getURL` returns the error `failed to get`. -/
theorem getURL_retries_exhausted (requestError : String → Option String) (cache : Cache)
    (u : URL) (w : World) (hs : u.Scheme = "http" ∨ u.Scheme = "https")
    (hm : ∀ e, cache u.String = some e → ¬ Before w.nowCheck e.Expires)
    (hreq : requestError u.String = none)
    (hretry : ∀ i, i < 3 → (w.Do (requestFor u) i).retriable) :
    fetchLoop u.Host (w.Do (requestFor u)) maxRetries 0 = (.finished none, 3) ∧
    (getURL requestError cache u w).result = .error "failed to get" ∧
    (getURL requestError cache u w).trace =
      [.LoadOrStore u.String, .NewRequest u.String, .Do (requestFor u) 0,
        .Do (requestFor u) 1, .Do (requestFor u) 2] := by
  have hl := fetchLoop_exhausted u.Host (w.Do (requestFor u)) hretry
  obtain ⟨hres, htr, -⟩ := getURL_miss_parts requestError cache u w hs hm
  have hf : fetch requestError u w.Do =
      (.error "failed to get", .NewRequest u.String :: doEvents (requestFor u) maxRetries) := by
    rw [fetch_eq requestError u w.Do hreq, hl]
  rw [hres, htr, hf]
  exact ⟨hl, rfl, rfl⟩

/-- C4 at `[503, 503, 503]`. -/
theorem getURL_retries_exhausted_witness :
    fetchLoop forecastURL.Host
        ((worldOf [unavailable, unavailable, unavailable] 5 6).Do (requestFor forecastURL))
        maxRetries 0 = (.finished none, 3) ∧
    (getURL acceptAll emptyCache forecastURL
        (worldOf [unavailable, unavailable, unavailable] 5 6)).result =
      .error "failed to get" ∧
    (getURL acceptAll emptyCache forecastURL
        (worldOf [unavailable, unavailable, unavailable] 5 6)).trace =
      [.LoadOrStore forecastURL.String, .NewRequest forecastURL.String,
        .Do (requestFor forecastURL) 0, .Do (requestFor forecastURL) 1,
        .Do (requestFor forecastURL) 2] :=
  getURL_retries_exhausted acceptAll emptyCache forecastURL
    (worldOf [unavailable, unavailable, unavailable] 5 6) (by decide)
    (by intro e he; simp [emptyCache] at he) rfl
    (by
      intro i hi
      have h3 : i = 0 ∨ i = 1 ∨ i = 2 := by omega
      rcases h3 with h | h | h <;> subst h <;> decide)

/-- C5: when the first response has a status that is neither 200 nor in 500..599,
the loop of `getURL` returns after that one call of the client, and the error of
`getURL` is the host, ` says: `, and the status text of the response. -/
theorem getURL_other_status (requestError : String → Option String) (cache : Cache)
    (u : URL) (w : World) (resp : Response) (hs : u.Scheme = "http" ∨ u.Scheme = "https")
    (hm : ∀ e, cache u.String = some e → ¬ Before w.nowCheck e.Expires)
    (hreq : requestError u.String = none)
    (hd : w.Do (requestFor u) 0 = .response resp)
    (h200 : resp.StatusCode ≠ 200)
    (h5xx : ¬ (500 ≤ resp.StatusCode ∧ resp.StatusCode ≤ 599)) :
    (getURL requestError cache u w).result = .error (u.Host ++ " says: " ++ resp.Status) ∧
    (getURL requestError cache u w).trace =
      [.LoadOrStore u.String, .NewRequest u.String, .Do (requestFor u) 0] := by
  have h5 : ¬ (500 ≤ resp.StatusCode ∧ resp.StatusCode < 600) := by omega
  have hl := fetchLoop_other u.Host (w.Do (requestFor u)) 2 0 resp hd h200 h5
  obtain ⟨hres, htr, -⟩ := getURL_miss_parts requestError cache u w hs hm
  have hf : fetch requestError u w.Do =
      (.error (u.Host ++ " says: " ++ resp.Status),
        .NewRequest u.String :: doEvents (requestFor u) 1) := by
    rw [fetch_eq requestError u w.Do hreq]
    change (match fetchLoop u.Host (w.Do (requestFor u)) (2 + 1) 0 with
      | (.returned err, attempts) => _
      | (.finished none, attempts) => _
      | (.finished (some body), attempts) => _) = _
    rw [hl]
  rw [hres, htr, hf]
  exact ⟨rfl, rfl⟩

/-- C5 at a first response 404, followed by a 200 that is never asked for. -/
theorem getURL_other_status_witness :
    (getURL acceptAll emptyCache forecastURL
        (worldOf [respond 404 "404 Not Found" [], respond 200 "200 OK" [1]] 5 6)).result =
      .error "forecast.weather.gov says: 404 Not Found" ∧
    (getURL acceptAll emptyCache forecastURL
        (worldOf [respond 404 "404 Not Found" [], respond 200 "200 OK" [1]] 5 6)).trace =
      [.LoadOrStore forecastURL.String, .NewRequest forecastURL.String,
        .Do (requestFor forecastURL) 0] :=
  getURL_other_status acceptAll emptyCache forecastURL
    (worldOf [respond 404 "404 Not Found" [], respond 200 "200 OK" [1]] 5 6)
    { StatusCode := 404, Status := "404 Not Found", Body := { ReadAll := .ok [] } }
    (by decide) (by intro e he; simp [emptyCache] at he) rfl rfl (by decide) (by decide)

/-- C6: for `k` in 0, 1, 2, when the first `k` outcomes are transport errors or
statuses in 500..599 and the next is a 200 response whose body reads as `B`, `getURL`
calls the client exactly `k + 1` times, reads the body once, and returns `B`. -/
theorem getURL_succeeds_after_retries (requestError : String → Option String)
    (cache : Cache) (u : URL) (w : World) (k : Nat) (resp : Response) (B : Bytes)
    (hs : u.Scheme = "http" ∨ u.Scheme = "https")
    (hm : ∀ e, cache u.String = some e → ¬ Before w.nowCheck e.Expires)
    (hreq : requestError u.String = none) (hk : k ≤ 2)
    (hretry : ∀ i, i < k → (w.Do (requestFor u) i).retriable)
    (hd : w.Do (requestFor u) k = .response resp) (h200 : resp.StatusCode = 200)
    (hbody : resp.Body.ReadAll = .ok B) :
    (fetchLoop u.Host (w.Do (requestFor u)) maxRetries 0).2 = k + 1 ∧
    (getURL requestError cache u w).result = .ok B ∧
    (getURL requestError cache u w).trace =
      [.LoadOrStore u.String, .NewRequest u.String] ++
        (List.range (k + 1)).map (Event.Do (requestFor u)) ++ [.ReadAll] := by
  have hl := fetchLoop_success u.Host (w.Do (requestFor u)) k resp
    (by unfold maxRetries; omega) hretry hd h200
  obtain ⟨hres, htr, -⟩ := getURL_miss_parts requestError cache u w hs hm
  have hf : fetch requestError u w.Do =
      (.ok B, .NewRequest u.String :: (doEvents (requestFor u) (k + 1) ++ [.ReadAll])) := by
    rw [fetch_eq requestError u w.Do hreq, hl]
    simp only [hbody]
  rw [hres, htr, hf, hl]
  exact ⟨rfl, rfl, rfl⟩

/-- C6 at `[503, 503, 200]`. -/
theorem getURL_succeeds_after_retries_witness :
    (fetchLoop forecastURL.Host
      ((worldOf [unavailable, unavailable, respond 200 "200 OK" [7, 8]] 5 6).Do
        (requestFor forecastURL)) maxRetries 0).2 = 2 + 1 ∧
    (getURL acceptAll emptyCache forecastURL
        (worldOf [unavailable, unavailable, respond 200 "200 OK" [7, 8]] 5 6)).result =
      .ok [7, 8] ∧
    (getURL acceptAll emptyCache forecastURL
        (worldOf [unavailable, unavailable, respond 200 "200 OK" [7, 8]] 5 6)).trace =
      [.LoadOrStore forecastURL.String, .NewRequest forecastURL.String] ++
        (List.range (2 + 1)).map (Event.Do (requestFor forecastURL)) ++ [.ReadAll] :=
  getURL_succeeds_after_retries acceptAll emptyCache forecastURL
    (worldOf [unavailable, unavailable, respond 200 "200 OK" [7, 8]] 5 6) 2
    { StatusCode := 200, Status := "200 OK", Body := { ReadAll := .ok [7, 8] } } [7, 8]
    (by decide) (by intro e he; simp [emptyCache] at he) rfl (by decide)
    (by
      intro i hi
      have h2 : i = 0 ∨ i = 1 := by omega
      rcases h2 with h | h <;> subst h <;> decide)
    rfl rfl rfl

/-! ## What a successful fetch stores (C7) -/

/-- The durations of the `switch u.Host`, in seconds. -/
theorem expiryDuration_seconds (host : String) :
    expiryDuration host =
      if host = "www2.ehs.niu.edu" then 300 * Second
      else if host = "api.usno.navy.mil" then 10800 * Second
      else 3600 * Second := by
  unfold expiryDuration Hour Minute Second
  split
  · rfl
  · split <;> rfl

/-- C7: after a `getURL(u)` that fetched successfully, the entry of `u` holds the
body of the 200 response as content, and as expiry the time read after the fetch
plus `TTL(u.Host)`: 300 seconds for `www2.ehs.niu.edu`, 10800 seconds for
`api.usno.navy.mil`, 3600 seconds for every other host. -/
theorem getURL_stores_content_and_expiry (requestError : String → Option String)
    (cache : Cache) (u : URL) (w : World) (C : Bytes)
    (hfetch : Event.NewRequest u.String ∈ (getURL requestError cache u w).trace)
    (hok : (getURL requestError cache u w).result = .ok C) :
    (getURL requestError cache u w).cache u.String =
      some { Content := C, Expires := w.nowStore + expiryDuration u.Host } ∧
    (∃ k resp, k < 3 ∧ w.Do (requestFor u) k = .response resp ∧ resp.StatusCode = 200 ∧
      resp.Body.ReadAll = .ok C) ∧
    expiryDuration u.Host =
      (if u.Host = "www2.ehs.niu.edu" then 300 * Second
       else if u.Host = "api.usno.navy.mil" then 10800 * Second
       else 3600 * Second) := by
  obtain ⟨hst, hf⟩ := getURL_fetch_stores requestError cache u w C hfetch hok
  obtain ⟨-, k, resp, hk, -, hd, h200, hb, -⟩ := fetch_ok_inv requestError u w.Do C hf
  exact ⟨hst, ⟨k, resp, hk, hd, h200, hb⟩, expiryDuration_seconds u.Host⟩

/-- C7 at `http://www2.ehs.niu.edu/r`, the fetch ending at time 1000: the entry
expires 300 seconds later. -/
theorem getURL_stores_content_and_expiry_witness :
    (getURL acceptAll emptyCache niuURL
        (worldOf [unavailable, respond 200 "200 OK" [4, 2]] 900 1000)).cache niuURL.String =
      some { Content := [4, 2], Expires := 1000 + 300 * Second } :=
  (getURL_stores_content_and_expiry acceptAll emptyCache niuURL
    (worldOf [unavailable, respond 200 "200 OK" [4, 2]] 900 1000) [4, 2]
    (by decide) (by decide)).1

/-! ## The status of the response (C8) -/

/-- C8 as stated fails: for the target `ftp://forecast.weather.gov`, which parses and
has an allow-listed host, the handler calls `http.Error` with the message of `getURL`
and status 500, not 400. -/
theorem proxyRequest_ftp_is_500 :
    (proxyRequest acceptAll emptyCache (.ok ftpURL) (worldOf [] 5 6)).written =
      .Error "unsupported scheme" 500 ∧
    (proxyRequest acceptAll emptyCache (.ok ftpURL) (worldOf [] 5 6)).written.status ≠ 400 := by
  decide

/-- The status is 400 exactly for a parse failure or a host outside the list. -/
theorem proxyRequest_status_400 (requestError : String → Option String) (cache : Cache)
    (parsed : Except String URL) (w : World) :
    (proxyRequest requestError cache parsed w).written.status = 400 ↔
      (∃ err, parsed = .error err) ∨ (∃ u, parsed = .ok u ∧ u.Host ∉ allowedHosts) := by
  cases parsed with
  | error err => simp [proxyRequest, Written.status, StatusBadRequest]
  | ok u =>
    by_cases hh : u.Host ∈ allowedHosts
    · simp only [proxyRequest, hh, if_true]
      cases (getURL requestError cache u w).result <;>
        simp [Written.status, StatusInternalServerError, StatusOK, hh]
    · simp [proxyRequest, hh, Written.status, StatusBadRequest]

/-- The status is 500 exactly when `getURL` was called and returned an error. -/
theorem proxyRequest_status_500 (requestError : String → Option String) (cache : Cache)
    (parsed : Except String URL) (w : World) :
    (proxyRequest requestError cache parsed w).written.status = 500 ↔
      ∃ u err, parsed = .ok u ∧ u.Host ∈ allowedHosts ∧
        (getURL requestError cache u w).result = .error err := by
  cases parsed with
  | error err => simp [proxyRequest, Written.status, StatusBadRequest]
  | ok u =>
    by_cases hh : u.Host ∈ allowedHosts
    · simp only [proxyRequest, hh, if_true]
      cases hr : (getURL requestError cache u w).result <;>
        simp [Written.status, StatusInternalServerError, StatusOK, hh, hr]
    · simp [proxyRequest, hh, Written.status, StatusBadRequest]

/-- C8, amended: for a target that parses, has an allow-listed host and a scheme
other than `http` and `https`, the handler answers with status 500 and the message
`unsupported scheme`, without touching the cache or the client; for every request,
status 400 is produced exactly by a parse failure or a host outside the allow-list,
and status 500 exactly when `getURL` returned an error, the unsupported scheme or a
failure of the fetch. -/
theorem proxyRequest_bad_scheme_is_500 (requestError : String → Option String)
    (cache : Cache) (u : URL) (w : World) (hhost : u.Host ∈ allowedHosts)
    (hscheme : ¬ (u.Scheme = "http" ∨ u.Scheme = "https")) :
    (proxyRequest requestError cache (.ok u) w).written =
      .Error "unsupported scheme" StatusInternalServerError ∧
    (proxyRequest requestError cache (.ok u) w).written.status = 500 ∧
    (proxyRequest requestError cache (.ok u) w).trace = [] ∧
    (proxyRequest requestError cache (.ok u) w).cache = cache ∧
    (∀ (parsed : Except String URL) (w2 : World),
      ((proxyRequest requestError cache parsed w2).written.status = 400 ↔
        (∃ err, parsed = .error err) ∨ (∃ v, parsed = .ok v ∧ v.Host ∉ allowedHosts)) ∧
      ((proxyRequest requestError cache parsed w2).written.status = 500 ↔
        ∃ v err, parsed = .ok v ∧ v.Host ∈ allowedHosts ∧
          (getURL requestError cache v w2).result = .error err)) := by
  have hp : proxyRequest requestError cache (.ok u) w =
      { written := .Error "unsupported scheme" StatusInternalServerError,
        cache := cache, trace := [] } := by
    simp only [proxyRequest, hhost, if_true, getURL_badScheme requestError cache u w hscheme]
  rw [hp]
  exact ⟨rfl, rfl, rfl, rfl, fun parsed w2 =>
    ⟨proxyRequest_status_400 requestError cache parsed w2,
      proxyRequest_status_500 requestError cache parsed w2⟩⟩

/-- C8, amended, at `ftp://forecast.weather.gov`. -/
theorem proxyRequest_bad_scheme_is_500_witness :
    (proxyRequest acceptAll emptyCache (.ok ftpURL) (worldOf [] 5 6)).written =
      .Error "unsupported scheme" StatusInternalServerError ∧
    (proxyRequest acceptAll emptyCache (.ok ftpURL) (worldOf [] 5 6)).written.status = 500 :=
  ⟨(proxyRequest_bad_scheme_is_500 acceptAll emptyCache ftpURL (worldOf [] 5 6)
      (by decide) (by decide)).1,
    (proxyRequest_bad_scheme_is_500 acceptAll emptyCache ftpURL (worldOf [] 5 6)
      (by decide) (by decide)).2.1⟩

/-! ## Lemmas on the walk of the file tree -/

theorem ToLower_data (lowerRune : Char → Char) (s : String) :
    (ToLower lowerRune s).data = s.data.map lowerRune := rfl

theorem ToLower_eq_iff (lowerRune : Char → Char) (s t : String) :
    ToLower lowerRune s = t ↔ s.data.map lowerRune = t.data := by
  constructor
  · intro h; rw [← h]; rfl
  · intro h; exact String.ext h

theorem Join_data (name elem : String) (hn : name ≠ ".") :
    (Join name elem).data = name.data ++ '/' :: elem.data := by
  simp [Join, hn, String.data_append]

theorem Join_ne_dot (name elem : String) (hn : name ≠ ".") : Join name elem ≠ "." := by
  intro h
  have hd := Join_data name elem hn
  rw [h] at hd
  cases hname : name.data with
  | nil => rw [hname] at hd; simp at hd
  | cons c cs =>
    rw [hname] at hd
    have := congrArg List.length hd
    simp at this

mutual
/-- Below a directory other than the root every path starts with the directory's. -/
theorem nodePaths_prefix (name : String) (hn : name ≠ ".") :
    ∀ (d : Node) (q : String), q ∈ nodePaths name d → name.data <+: q.data
  | .file _, q, hq => by
    rw [nodePaths, List.mem_singleton] at hq
    rw [hq]
  | .dir _ entries, q, hq => by
    rw [nodePaths, List.mem_cons] at hq
    rcases hq with h | h
    · rw [h]
    · exact entriesPaths_prefix name hn entries q h
theorem entriesPaths_prefix (name : String) (hn : name ≠ ".") :
    ∀ (dirs : List Node) (q : String), q ∈ entriesPaths name dirs → name.data <+: q.data
  | [], q, hq => by simp [entriesPaths] at hq
  | d1 :: rest, q, hq => by
    rw [entriesPaths, List.mem_append] at hq
    rcases hq with h | h
    · have h1 := nodePaths_prefix (Join name d1.Name) (Join_ne_dot name d1.Name hn) d1 q h
      have h2 : name.data <+: (Join name d1.Name).data := by
        rw [Join_data name d1.Name hn]
        exact List.prefix_append _ _
      exact h2.trans h1
    · exact entriesPaths_prefix name hn rest q h
end

/-- The pruning test lets through every directory with a matching path below it. -/
theorem HasPrefix_of_match (lowerRune : Char → Char) (name lower : String) (d : Node)
    (hn : name ≠ ".") (q : String) (hq : q ∈ nodePaths name d)
    (hm : ToLower lowerRune q = lower) :
    HasPrefix lower (ToLower lowerRune name) = true := by
  have hp := nodePaths_prefix name hn d q hq
  unfold HasPrefix
  rw [List.isPrefixOf_iff_prefix, ← hm]
  exact hp.map lowerRune

/-- The closure on a path that does not match: `SkipDir` or nil, `file` untouched. -/
theorem openFn_no_match {File : Type} (lowerRune : Char → Char)
    (cifs : CaseInsensitiveFS File) (lower path : String) (d : Node) (file : Option File)
    (h : ToLower lowerRune path ≠ lower) :
    openFn lowerRune cifs lower path d file = (some .SkipDir, file) ∨
      openFn lowerRune cifs lower path d file = (none, file) := by
  unfold openFn
  simp only [h, if_false]
  split
  · exact Or.inl rfl
  · exact Or.inr rfl

/-- The closure on a file that does not match returns nil. -/
theorem openFn_file {File : Type} (lowerRune : Char → Char)
    (cifs : CaseInsensitiveFS File) (lower path elem : String) (file : Option File)
    (h : ToLower lowerRune path ≠ lower) :
    openFn lowerRune cifs lower path (.file elem) file = (none, file) := by
  simp [openFn, h, Node.IsDir]

/-- The closure on a matching path that opens returns `found` with the file. -/
theorem openFn_match {File : Type} (lowerRune : Char → Char)
    (cifs : CaseInsensitiveFS File) (lower path : String) (d : Node) (file : Option File)
    (f : File) (h : ToLower lowerRune path = lower) (ho : cifs.fs.Open path = .ok f) :
    openFn lowerRune cifs lower path d file = (some .found, some f) := by
  simp [openFn, h, ho]

/-- The closure on a directory that does not match but has a match below returns nil. -/
theorem openFn_descend {File : Type} (lowerRune : Char → Char)
    (cifs : CaseInsensitiveFS File) (lower path : String) (d : Node) (file : Option File)
    (h : ToLower lowerRune path ≠ lower)
    (hq : ∃ q, q ∈ nodePaths path d ∧ ToLower lowerRune q = lower) :
    openFn lowerRune cifs lower path d file = (none, file) := by
  obtain ⟨q, hq, hm⟩ := hq
  by_cases hn : path = "."
  · unfold openFn
    simp only [h, if_false]
    rw [if_neg (fun hc => hc.1 hn)]
  · have := HasPrefix_of_match lowerRune path lower d hn q hq hm
    simp [openFn, h, this]

mutual
/-- Without a matching path the walk of an entry ends without error, `file` untouched. -/
theorem walkDir_no_match {File : Type} (lowerRune : Char → Char)
    (cifs : CaseInsensitiveFS File) (lower : String) :
    ∀ (d : Node) (name : String) (file : Option File),
      (∀ q, q ∈ nodePaths name d → ToLower lowerRune q ≠ lower) →
      walkDir (openFn lowerRune cifs lower) name d file = (none, file)
  | .file elem, name, file, h => by
    rw [walkDir]
    exact openFn_file lowerRune cifs lower name elem file (h name (by simp [nodePaths]))
  | .dir elem entries, name, file, h => by
    have hname : ToLower lowerRune name ≠ lower := h name (by simp [nodePaths])
    have hrest : ∀ q, q ∈ entriesPaths name entries → ToLower lowerRune q ≠ lower :=
      fun q hq => h q (by rw [nodePaths]; exact List.mem_cons_of_mem _ hq)
    rw [walkDir]
    rcases openFn_no_match lowerRune cifs lower name (.dir elem entries) file hname with
      hf | hf
    · rw [hf]; rfl
    · rw [hf]
      exact walkEntries_no_match lowerRune cifs lower entries name file hrest
theorem walkEntries_no_match {File : Type} (lowerRune : Char → Char)
    (cifs : CaseInsensitiveFS File) (lower : String) :
    ∀ (dirs : List Node) (name : String) (file : Option File),
      (∀ q, q ∈ entriesPaths name dirs → ToLower lowerRune q ≠ lower) →
      walkEntries (openFn lowerRune cifs lower) name dirs file = (none, file)
  | [], name, file, _ => by rw [walkEntries]
  | d1 :: rest, name, file, h => by
    have h1 : ∀ q, q ∈ nodePaths (Join name d1.Name) d1 → ToLower lowerRune q ≠ lower :=
      fun q hq => h q (by rw [entriesPaths]; exact List.mem_append_left _ hq)
    have h2 : ∀ q, q ∈ entriesPaths name rest → ToLower lowerRune q ≠ lower :=
      fun q hq => h q (by rw [entriesPaths]; exact List.mem_append_right _ hq)
    rw [walkEntries, walkDir_no_match lowerRune cifs lower d1 (Join name d1.Name) file h1]
    exact walkEntries_no_match lowerRune cifs lower rest name file h2
end

mutual
/-- With a matching path, and every path opening, the walk of an entry ends with
`found` and the file of a matching path. -/
theorem walkDir_match {File : Type} (lowerRune : Char → Char)
    (cifs : CaseInsensitiveFS File) (lower : String) :
    ∀ (d : Node) (name : String) (file : Option File),
      (∀ q, q ∈ nodePaths name d → ∃ f, cifs.fs.Open q = .ok f) →
      (∃ q, q ∈ nodePaths name d ∧ ToLower lowerRune q = lower) →
      ∃ q f, q ∈ nodePaths name d ∧ ToLower lowerRune q = lower ∧
        cifs.fs.Open q = .ok f ∧
        walkDir (openFn lowerRune cifs lower) name d file = (some .found, some f)
  | .file elem, name, file, ho, hq => by
    obtain ⟨q, hq, hm⟩ := hq
    have hqn : q = name := by simpa [nodePaths] using hq
    subst hqn
    obtain ⟨f, hf⟩ := ho q hq
    refine ⟨q, f, hq, hm, hf, ?_⟩
    rw [walkDir]
    exact openFn_match lowerRune cifs lower q _ file f hm hf
  | .dir elem entries, name, file, ho, hq => by
    by_cases hname : ToLower lowerRune name = lower
    · have hmem : name ∈ nodePaths name (.dir elem entries) := by simp [nodePaths]
      obtain ⟨f, hf⟩ := ho name hmem
      refine ⟨name, f, hmem, hname, hf, ?_⟩
      rw [walkDir, openFn_match lowerRune cifs lower name _ file f hname hf]
      rfl
    · have hbelow : ∃ q, q ∈ entriesPaths name entries ∧ ToLower lowerRune q = lower := by
        obtain ⟨q, hq, hm⟩ := hq
        rw [nodePaths, List.mem_cons] at hq
        rcases hq with h | h
        · rw [h] at hm; exact absurd hm hname
        · exact ⟨q, h, hm⟩
      have hobelow : ∀ q, q ∈ entriesPaths name entries → ∃ f, cifs.fs.Open q = .ok f :=
        fun q h => ho q (by rw [nodePaths]; exact List.mem_cons_of_mem _ h)
      obtain ⟨q, f, hq2, hm, hf, hw⟩ :=
        walkEntries_match lowerRune cifs lower entries name file hobelow hbelow
      refine ⟨q, f, by rw [nodePaths]; exact List.mem_cons_of_mem _ hq2, hm, hf, ?_⟩
      rw [walkDir, openFn_descend lowerRune cifs lower name _ file hname hq]
      exact hw
theorem walkEntries_match {File : Type} (lowerRune : Char → Char)
    (cifs : CaseInsensitiveFS File) (lower : String) :
    ∀ (dirs : List Node) (name : String) (file : Option File),
      (∀ q, q ∈ entriesPaths name dirs → ∃ f, cifs.fs.Open q = .ok f) →
      (∃ q, q ∈ entriesPaths name dirs ∧ ToLower lowerRune q = lower) →
      ∃ q f, q ∈ entriesPaths name dirs ∧ ToLower lowerRune q = lower ∧
        cifs.fs.Open q = .ok f ∧
        walkEntries (openFn lowerRune cifs lower) name dirs file = (some .found, some f)
  | [], name, file, _, hq => by
    obtain ⟨q, hq, -⟩ := hq
    simp [entriesPaths] at hq
  | d1 :: rest, name, file, ho, hq => by
    have ho1 : ∀ q, q ∈ nodePaths (Join name d1.Name) d1 → ∃ f, cifs.fs.Open q = .ok f :=
      fun q h => ho q (by rw [entriesPaths]; exact List.mem_append_left _ h)
    have ho2 : ∀ q, q ∈ entriesPaths name rest → ∃ f, cifs.fs.Open q = .ok f :=
      fun q h => ho q (by rw [entriesPaths]; exact List.mem_append_right _ h)
    by_cases h1 : ∃ q, q ∈ nodePaths (Join name d1.Name) d1 ∧ ToLower lowerRune q = lower
    · obtain ⟨q, f, hq2, hm, hf, hw⟩ :=
        walkDir_match lowerRune cifs lower d1 (Join name d1.Name) file ho1 h1
      refine ⟨q, f, by rw [entriesPaths]; exact List.mem_append_left _ hq2, hm, hf, ?_⟩
      rw [walkEntries, hw]
      rfl
    · have hno : ∀ q, q ∈ nodePaths (Join name d1.Name) d1 → ToLower lowerRune q ≠ lower :=
        fun q hq2 hm => h1 ⟨q, hq2, hm⟩
      have h2 : ∃ q, q ∈ entriesPaths name rest ∧ ToLower lowerRune q = lower := by
        obtain ⟨q, hq, hm⟩ := hq
        rw [entriesPaths, List.mem_append] at hq
        rcases hq with h | h
        · exact absurd hm (hno q h)
        · exact ⟨q, h, hm⟩
      obtain ⟨q, f, hq2, hm, hf, hw⟩ :=
        walkEntries_match lowerRune cifs lower rest name file ho2 h2
      refine ⟨q, f, by rw [entriesPaths]; exact List.mem_append_right _ hq2, hm, hf, ?_⟩
      rw [walkEntries, walkDir_no_match lowerRune cifs lower d1 (Join name d1.Name) file hno]
      exact hw
end

/-- What `Open` returns when some path of the tree matches. -/
theorem Open_of_match {File : Type} (lowerRune : Char → Char)
    (cifs : CaseInsensitiveFS File) (name : String)
    (ho : ∀ p, p ∈ cifs.fs.paths → ∃ f, cifs.fs.Open p = .ok f)
    (hq : ∃ p, p ∈ cifs.fs.paths ∧ ToLower lowerRune p = ToLower lowerRune name) :
    ∃ p f, p ∈ cifs.fs.paths ∧ ToLower lowerRune p = ToLower lowerRune name ∧
      cifs.fs.Open p = .ok f ∧ cifs.Open lowerRune name = (some f, none) := by
  obtain ⟨p, f, hp, hm, hf, hw⟩ :=
    walkDir_match lowerRune cifs (ToLower lowerRune name) (.dir "." cifs.fs.entries) "."
      none ho hq
  refine ⟨p, f, hp, hm, hf, ?_⟩
  simp [CaseInsensitiveFS.Open, WalkDir, hw]

/-- What `Open` returns when no path of the tree matches. -/
theorem Open_of_no_match {File : Type} (lowerRune : Char → Char)
    (cifs : CaseInsensitiveFS File) (name : String)
    (hq : ¬ ∃ p, p ∈ cifs.fs.paths ∧ ToLower lowerRune p = ToLower lowerRune name) :
    cifs.Open lowerRune name = (none, some .ErrNotExist) := by
  have hw := walkDir_no_match lowerRune cifs (ToLower lowerRune name)
    (.dir "." cifs.fs.entries) "." none (fun q h hm => hq ⟨q, h, hm⟩)
  simp [CaseInsensitiveFS.Open, WalkDir, hw]

/-! ## Case-insensitive lookup (C10) -/

/-- C10: on a file tree whose `Open` succeeds on every path of the tree,
`CaseInsensitiveFS.Open(n)` returns a file if and only if some path `p` of the tree
has `ToLower(p) = ToLower(n)`; the file returned is the one the wrapped `Open` gives
at such a path; in every other case the result is `fs.ErrNotExist`; and the closure
never answers `SkipDir` on a directory below which a path matches. -/
theorem CaseInsensitiveFS_Open_iff {File : Type} (lowerRune : Char → Char)
    (cifs : CaseInsensitiveFS File) (name : String)
    (hopen : ∀ p, p ∈ cifs.fs.paths → ∃ f, cifs.fs.Open p = .ok f) :
    ((∃ f, cifs.Open lowerRune name = (some f, none)) ↔
      ∃ p, p ∈ cifs.fs.paths ∧ ToLower lowerRune p = ToLower lowerRune name) ∧
    (∀ f, cifs.Open lowerRune name = (some f, none) →
      ∃ p, p ∈ cifs.fs.paths ∧ ToLower lowerRune p = ToLower lowerRune name ∧
        cifs.fs.Open p = .ok f) ∧
    ((∃ f, cifs.Open lowerRune name = (some f, none)) ∨
      cifs.Open lowerRune name = (none, some .ErrNotExist)) ∧
    (∀ (path : String) (d : Node) (file : Option File),
      (∃ q, q ∈ nodePaths path d ∧ ToLower lowerRune q = ToLower lowerRune name) →
      (openFn lowerRune cifs (ToLower lowerRune name) path d file).1 ≠ some .SkipDir) := by
  by_cases hq : ∃ p, p ∈ cifs.fs.paths ∧ ToLower lowerRune p = ToLower lowerRune name
  · obtain ⟨p, f, hp, hm, hf, hres⟩ := Open_of_match lowerRune cifs name hopen hq
    refine ⟨⟨fun _ => hq, fun _ => ⟨f, hres⟩⟩, ?_, Or.inl ⟨f, hres⟩, ?_⟩
    · intro g hg
      rw [hres] at hg
      have : f = g := by simpa using hg
      exact ⟨p, hp, hm, this ▸ hf⟩
    · intro path d file hbelow
      by_cases hpath : ToLower lowerRune path = ToLower lowerRune name
      · unfold openFn
        simp only [hpath, if_true]
        cases cifs.fs.Open path <;> simp
      · rw [openFn_descend lowerRune cifs _ path d file hpath hbelow]
        simp
  · have hres := Open_of_no_match lowerRune cifs name hq
    refine ⟨⟨fun h => ?_, fun h => absurd h hq⟩, ?_, Or.inr hres, ?_⟩
    · obtain ⟨f, hf⟩ := h
      rw [hres] at hf
      simp at hf
    · intro g hg
      rw [hres] at hg
      simp at hg
    · intro path d file hbelow
      by_cases hpath : ToLower lowerRune path = ToLower lowerRune name
      · unfold openFn
        simp only [hpath, if_true]
        cases cifs.fs.Open path <;> simp
      · rw [openFn_descend lowerRune cifs _ path d file hpath hbelow]
        simp

/-- C10 on the tree `Images/Logo.png`, `foo.js`: a request for `Foo.JS` resolves the
stored `foo.js`. -/
theorem CaseInsensitiveFS_Open_iff_witness :
    (∀ p, p ∈ bundled.fs.paths → ∃ f, bundled.fs.Open p = .ok f) ∧
    ((∃ f, bundled.Open Char.toLower "Foo.JS" = (some f, none)) ↔
      ∃ p, p ∈ bundled.fs.paths ∧
        ToLower Char.toLower p = ToLower Char.toLower "Foo.JS") ∧
    bundled.Open Char.toLower "Foo.JS" = (some "foo.js", none) :=
  ⟨fun p _ => ⟨p, rfl⟩,
    (CaseInsensitiveFS_Open_iff Char.toLower bundled "Foo.JS" (fun p _ => ⟨p, rfl⟩)).1,
    by decide⟩

/-! ## Degrees and minutes to decimal degrees (C9) -/

/-- C9: `degreesToDecimal` maps `39 51N` to `39.85`, but it maps `104 39W` to
`-103.35`: the sign is applied to the degrees alone, and the minutes are added,
where the comment in the code and the claim have `-104.65`, the rendering of the
magnitude `104 + 39/60` negated as a whole. -/
theorem degreesToDecimal_west_minutes_added :
    degreesToDecimal "39 51N" = .ok "39.85" ∧
    degreesToDecimal "104 39W" = .ok "-103.35" ∧
    degreesToDecimal "104 39W" ≠ .ok "-104.65" ∧
    FormatFloat (-(104 + 39 / 60)) = "-104.65" := by
  with_unfolding_all decide

end Ws4kp
